import Mathlib

/-!
Shallow embedding of the pneo terminal application (src/main.rs, src/cache.rs,
src/store.rs) for checking its natural-language specification.

Strings are modelled as `List Char`; Rust's `String::len` (the UTF-8 byte
count) is modelled by summing per-character UTF-8 sizes, while character
counts are plain list lengths.  Machine integers are modelled as `Nat`/`Int`
with explicit `% 2 ^ w` at the points where the source performs an `as` cast.
Fallible operations return `Except`/`Option`, with `none` standing for a
Rust panic.
-/

deriving instance DecidableEq for Except

namespace Pneo

/-- UTF-8 byte size of one character, as used by Rust's `String` encoding. -/
def charSize (c : Char) : Nat :=
  if c.val < 128 then 1
  else if c.val < 2048 then 2
  else if c.val < 65536 then 3
  else 4

/-- Rust `String::len`: the UTF-8 byte length of the string. -/
def rustByteLen (s : List Char) : Nat :=
  (s.map charSize).sum

/-- Index of the first occurrence of `pat` inside `s` (Rust `str::find` /
the search inside `split_once`). -/
def subAt (pat s : List Char) : Option Nat :=
  (List.range (s.length + 1)).find? (fun i => decide (pat.isPrefixOf (s.drop i)))

/-- Rust `str::split_once(pat)`: split around the first occurrence of `pat`. -/
def rustSplitOnce (s pat : List Char) : Option (List Char × List Char) :=
  (subAt pat s).map (fun i => (s.take i, s.drop (i + pat.length)))

/-- Index of the last occurrence of the character `c` in `s` (Rust
`str::rfind` for a one-character pattern). -/
def rfindChar (c : Char) : List Char → Option Nat
  | [] => none
  | x :: xs =>
    match rfindChar c xs with
    | some i => some (i + 1)
    | none => if x = c then some 0 else none

/-- Rust `str::rsplit_once(c)` for a one-character pattern: split around the
last occurrence of `c`. -/
def rsplitOnceChar (s : List Char) (c : Char) : Option (List Char × List Char) :=
  (rfindChar c s).map (fun i => (s.take i, s.drop (i + 1)))

/-- Decimal value of an ASCII digit, `none` otherwise (Rust `char::to_digit(10)`). -/
def digitVal (c : Char) : Option Nat :=
  if '0' ≤ c ∧ c ≤ '9' then some (c.toNat - '0'.toNat) else none

/-- Rust `u8::from_str_radix(s, 10)`: an optional leading `+`, then at least
one decimal digit, rejecting values above `u8::MAX`. -/
def parseU8 (s : List Char) : Option Nat :=
  let digits := match s with
    | '+' :: rest => rest
    | _ => s
  if digits = [] then none
  else
    digits.foldl
      (fun acc c =>
        acc.bind (fun n =>
          (digitVal c).bind (fun d =>
            let m := n * 10 + d
            if m < 256 then some m else none)))
      (some 0)

/-- The arXiv id prefix constant `ID_PREFIX` of `cache.rs`. -/
def idStart : List Char := "http://arxiv.org/abs/".data

namespace preprint

/-- Model of `preprint::id_to_file` in `cache.rs`: keep the last `/`-separated segment
of the id and append `v<version>.pdf`. -/
def id_to_file (id : List Char) (version : Nat) : List Char :=
  let basename := match rsplitOnceChar id '/' with
    | some p => p.2
    | none => id
  basename ++ ('v' :: Nat.toDigits 10 version) ++ ".pdf".data

/-- Model of `preprint::validate` in `cache.rs`: checks the requested arXiv id against
the externally referenced id and the version suffix of the download URL,
returning the URL's trailing segment and the parsed version. -/
def validate (id referenced_id url : List Char) :
    Except (List Char) (List Char × Nat) :=
  match (rustSplitOnce id idStart).bind
      (fun p => if p.1 = [] then some p.2 else none) with
  | none => .error "unexpected arxiv id".data
  | some identifier =>
    let iv : List Char × Option (List Char) :=
      match rsplitOnceChar identifier 'v' with
      | some p => (p.1, some p.2)
      | none => (identifier, none)
    if iv.1 ≠ referenced_id then .error "inconsistent ids".data
    else
      match (rfindChar '/' url).bind
          (fun i => if i < url.length - 1 then some i else none) with
      | none => .error "unexpected url structure".data
      | some index =>
        let basename := url.drop (index + 1)
        match rsplitOnceChar basename 'v' with
        | none => .error "no version suffix".data
        | some uv =>
          let same_version : Bool := match iv.2 with
            | some v => decide (v = uv.2)
            | none => true
          if same_version then
            match parseU8 uv.2 with
            | some ver => .ok (basename, ver)
            | none => .error "invalid version string".data
          else .error "inconsistent versions".data

end preprint

/-- The version suffix that `preprint::validate` parses out of the requested
id: the part after the last `v` of the id with `ID_PREFIX` stripped, when
both the prefix strip and the split succeed. -/
def idVersionChars (id : List Char) : Option (List Char) :=
  ((rustSplitOnce id idStart).bind
      (fun p => if p.1 = [] then some p.2 else none)).bind
    (fun identifier => (rsplitOnceChar identifier 'v').map (fun p => p.2))

/-- The version suffix that `preprint::validate` parses out of the download
URL: the part after the last `v` of the trailing path segment. -/
def urlVersionChars (url : List Char) : Option (List Char) :=
  ((rfindChar '/' url).bind
      (fun i => if i < url.length - 1 then some i else none)).bind
    (fun i => (rsplitOnceChar (url.drop (i + 1)) 'v').map (fun p => p.2))

/-- Maximum of a list of naturals (the SQL `MAX(version)` aggregate; the code
only evaluates it on non-empty groups). -/
def listMaxNat : List Nat → Nat
  | [] => 0
  | v :: vs => max v (listMaxNat vs)

/-- State backing `Cache` of `cache.rs`: the preprint directory, the rows of
the `eprints` table (in insertion order), and the files on disk as a map from
path to contents. -/
structure CacheState where
  preprints : List Char
  index : List (List Char × Nat)
  files : List (List Char × List Nat)
deriving DecidableEq

/-- Model of `std::fs::write`: create or truncate-and-overwrite the file at `path`. -/
def fsWrite (files : List (List Char × List Nat)) (path : List Char)
    (content : List Nat) : List (List Char × List Nat) :=
  (path, content) :: files.filter (fun f => decide (f.1 ≠ path))

/-- Model of `Cache::insert` in `cache.rs`: validate, write the file, then insert the
`(referenced_id, version)` row, which the `UNIQUE (id, version)` constraint
rejects when the pair is already present.  The pair is the state after the
call (the file write persists even when the row insert fails). -/
def Cache.insert (s : CacheState) (id referenced_id url : List Char)
    (content : List Nat) : Except (List Char) (List Char) × CacheState :=
  match preprint.validate id referenced_id url with
  | .error e => (.error e, s)
  | .ok bv =>
    let path := s.preprints ++ '/' :: (bv.1 ++ ".pdf".data)
    let files := fsWrite s.files path content
    if (referenced_id, bv.2) ∈ s.index then
      (.error "UNIQUE constraint failed: eprints.id, eprints.version".data,
       { s with files := files })
    else
      (.ok path,
       { s with files := files, index := s.index ++ [(referenced_id, bv.2)] })

/-- Model of `Cache::preprint_file_from_id` in `cache.rs`: `SELECT version FROM eprints
WHERE id = ? ORDER BY version DESC LIMIT 1`, then build the file path and fail
loudly when the backing file is missing. -/
def Cache.preprint_file_from_id (s : CacheState) (id : List Char) :
    Except (List Char) (Option (List Char)) :=
  match (s.index.filter (fun r => decide (r.1 = id))).map (fun r => r.2) with
  | [] => .ok none
  | v :: vs =>
    let version := listMaxNat (v :: vs)
    let filepath := s.preprints ++ '/' :: preprint.id_to_file id version
    if s.files.any (fun f => decide (f.1 = filepath)) then .ok (some filepath)
    else .error "inconsistent cache".data

/-- Model of `Cache::get_downloaded` in `cache.rs`: `SELECT id, MAX(version) FROM
eprints GROUP BY id`, modelled as the lookup function of the returned
`HashMap` (which is exactly its unordered contents). -/
def Cache.get_downloaded (s : CacheState) (id : List Char) : Option Nat :=
  match (s.index.filter (fun r => decide (r.1 = id))).map (fun r => r.2) with
  | [] => none
  | v :: vs => some (listMaxNat (v :: vs))

/-- Rust `expr as u16` on a signed value: keep the low 16 bits. -/
def u16cast (i : Int) : Nat :=
  (i % 65536).toNat

/-- Rust `expr as usize` (64-bit) on a signed value: keep the low 64 bits. -/
def usizeCast (i : Int) : Nat :=
  (i % (2 ^ 64)).toNat

/-- Model of `TableState` in `main.rs`; `focus` and `offset` are `u16` in the source
and are kept as `Nat` with wrapping applied where the source casts. -/
structure TableState where
  entries : List Nat
  focus : Nat
  offset : Nat
deriving DecidableEq

/-- Model of `TableState::new`. -/
def TableState.new (entries : List Nat) : TableState :=
  ⟨entries, 0, 0⟩

/-- Model of `TableState::change_focus`: returns whether the focus changed. -/
def TableState.change_focus (t : TableState) (focus : Nat) : Bool × TableState :=
  if focus = t.focus then (false, t)
  else (true, { t with focus := focus })

/-- Model of `TableState::down`: `(focus + step).min((entries.len() - 1) as u16)`;
`focus + step` wraps at `u16` (release-build semantics), as does the
`usize`-to-`u16` cast of `entries.len() - 1`. -/
def TableState.down (t : TableState) (step : Nat) : Bool × TableState :=
  if t.entries = [] then (false, t)
  else
    let next_focus := min ((t.focus + step) % 65536) ((t.entries.length - 1) % 65536)
    t.change_focus next_focus

/-- Model of `TableState::up`: `focus.saturating_sub(step)` is `Nat` subtraction. -/
def TableState.up (t : TableState) (step : Nat) : Bool × TableState :=
  if t.entries = [] then (false, t)
  else t.change_focus (t.focus - step)

/-- Model of `TableState::set`: set the focus to the clicked row (no clamping). -/
def TableState.set (t : TableState) (row : Nat) : Bool × TableState :=
  if t.entries = [] then (false, t)
  else t.change_focus row

/-- Model of `TableState::draw` in `main.rs`: the per-redraw windowing pass, computed
on `isize` exactly as the source writes it; the new state stores
`offset as u16` and the returned pair is `(offset as usize, marker as usize)`. -/
def TableState.draw (t : TableState) (size : Nat) : TableState × Nat × Nat :=
  let space : Int := size
  let offset0 : Int := t.offset
  let marker0 : Int := (t.focus : Int) - offset0
  let entries : Int := t.entries.length
  let step1 : Int × Int :=
    if marker0 + 1 > space then (offset0 + (marker0 + 1 - space), space - 1)
    else if marker0 < 0 then (offset0 + marker0, 0)
    else (offset0, marker0)
  let showed : Int := min (entries - step1.1) space
  let step2 : Int × Int :=
    if showed < entries ∧ showed < space then
      let diff := space - showed
      let next_offset := min (step1.1 - diff) 0
      (next_offset, step1.2 + (step1.1 - next_offset))
    else step1
  ({ t with offset := u16cast step2.1 }, usizeCast step2.1, usizeCast step2.2)

/-- Byte offset of the `cursor`-th character of the buffer, i.e. the result
of `char_indices().skip(cursor).next()` in `State::append`; `none` models the
`unwrap` panic when no such character exists. -/
def charIdxToBytePos : List Char → Nat → Option Nat
  | [], _ => none
  | _ :: _, 0 => some 0
  | c :: cs, n + 1 => (charIdxToBytePos cs n).map (fun b => b + charSize c)

/-- Rust `String::insert(b, ch)`: insert at byte index `b`; `none` models the
panic when `b` is past the end or not on a character boundary. -/
def insertAtByte : List Char → Nat → Char → Option (List Char)
  | cs, 0, ch => some (ch :: cs)
  | [], _ + 1, _ => none
  | c :: cs, b + 1, ch =>
    if b + 1 < charSize c then none
    else (insertAtByte cs (b + 1 - charSize c) ch).map (fun r => c :: r)

/-- Rust `String::remove(b)`: remove the character starting at byte index
`b`; `none` models the panic when `b` is out of range or not on a character
boundary. -/
def removeAtByte : List Char → Nat → Option (List Char)
  | [], _ => none
  | _ :: cs, 0 => some cs
  | c :: cs, b + 1 =>
    if b + 1 < charSize c then none
    else (removeAtByte cs (b + 1 - charSize c)).map (fun r => c :: r)

/-- Model of `State::append` in `main.rs` acting on the input buffer and cursor:
push at the end when the cursor sits after the last character, otherwise
insert at the byte offset of the cursor's character.  `none` models a panic. -/
def State.append (input : List Char) (cursor : Nat) (ch : Char) :
    Option (List Char × Nat) :=
  if input.length = cursor then some (input ++ [ch], cursor + 1)
  else
    match charIdxToBytePos input cursor with
    | none => none
    | some pos => (insertAtByte input pos ch).map (fun r => (r, cursor + 1))

/-- Model of `State::delete` in `main.rs`: pop when the cursor sits at the end,
otherwise `self.input.remove(self.cursor - 1)` — the source passes the
character-counted cursor as a byte index.  Returns the new buffer, the new
cursor and the `bool` result; `none` models a panic. -/
def State.delete (input : List Char) (cursor : Nat) :
    Option (List Char × Nat × Bool) :=
  if input.length = cursor then
    if input = [] then some ([], cursor, false)
    else some (input.dropLast, cursor - 1, true)
  else if 0 < cursor then
    (removeAtByte input (cursor - 1)).map (fun r => (r, cursor - 1, true))
  else some (input, cursor, false)

/-- Outcome of the `Message::Commit` arm of `main_loop`: the `searching`
flag after the arm and the query newly stored into the search-task slot. -/
structure CommitResult where
  searching : Bool
  request : Option (List Char)
deriving DecidableEq

/-- The `Message::Commit` arm of `main_loop` in `main.rs`: the guard is
`state.input.len() < 3`, i.e. the UTF-8 byte length of the input. -/
def commitStep (input : List Char) (searching : Bool) : CommitResult :=
  if rustByteLen input < 3 then ⟨false, none⟩
  else ⟨searching, some input⟩

/-- Model of `Option<surf::Result<TableState<Metadata>>>`, the `output` field of
`State` in `main.rs`. -/
inductive SearchOutcome where
  | err (msg : List Char)
  | ok (t : TableState)
deriving DecidableEq

/-- The fields of `State` in `main.rs` that the mouse-click handler reads,
together with the `last_click` variable of `main_loop`. -/
structure ClickState where
  searching : Bool
  progress : Option (Nat × Nat)
  output : Option SearchOutcome
  lastClickTime : Nat
  lastClickRow : Nat
deriving DecidableEq

/-- Model of `State::busy`. -/
def ClickState.busy (s : ClickState) : Bool :=
  s.searching || s.progress.isSome

/-- Model of `State::click_entry` in `main.rs`. -/
def ClickState.click_entry (s : ClickState) (row : Nat) : Bool × ClickState :=
  if s.busy then (false, s)
  else
    match s.output with
    | some (.ok t) =>
      let r := t.set row
      (r.1, { s with output := some (.ok r.2) })
    | _ => (false, s)

/-- The action chosen by the `MouseEventKind::Up` arm: `select` is
`Action::Select`, `focusChange` the plain-redraw path, `ignored` the
`continue` path. -/
inductive ClickAction where
  | select
  | focusChange
  | ignored
deriving DecidableEq

/-- The `MouseEventKind::Up(MouseButton::Left)` arm of `main_loop` for a
click that landed inside the table, clicking row `index` at time `now`
(milliseconds).  `in_window` is `elapsed < 500ms` with a failed elapsed
reading (clock moved backwards) counting as inside the window, which is
exactly `now < lastClickTime + 500` on `Nat`. -/
def clickUpStep (s : ClickState) (now index : Nat) : ClickState × ClickAction :=
  let c := s.click_entry index
  let changed := c.1
  let s1 := c.2
  let clicked := match s1.output with
    | some (.ok t) => decide (t.focus = index)
    | _ => false
  let in_window := decide (now < s1.lastClickTime + 500)
  let same_row := decide (s1.lastClickRow = index)
  let s2 := if clicked then { s1 with lastClickTime := now, lastClickRow := index } else s1
  if in_window && same_row then (s2, .select)
  else if changed then (s2, .focusChange)
  else (s2, .ignored)

/-- A message on the `StoreConnection` channel of `store.rs`: a `Compute`
closure, abstracted as a command identifier plus whether it succeeds, or the
`End` sentinel (named `stop` because `end` is a Lean keyword). -/
inductive StoreMsg where
  | compute (cmdId : Nat) (ok : Bool)
  | stop
deriving DecidableEq

/-- The writer-thread loop of `StoreConnection::start` in `store.rs`,
applied to the messages it receives in channel order: each `Compute` runs to
completion before the next message is taken, a failure is logged and the
loop continues, and `End` (or a closed channel) stops the loop.  Returns the
identifiers of the executed commands in execution order, and the identifiers
whose errors were logged. -/
def writerLoop : List StoreMsg → List Nat × List Nat
  | [] => ([], [])
  | .stop :: _ => ([], [])
  | .compute i ok :: rest =>
    let r := writerLoop rest
    (i :: r.1, if ok then r.2 else i :: r.2)

/-! ## Helper lemmas -/

/-- The maximum of a non-empty list of naturals is attained. -/
theorem listMaxNat_mem : ∀ (l : List Nat), l ≠ [] → listMaxNat l ∈ l := by
  intro l
  induction l with
  | nil => simp
  | cons a as ih =>
    intro _
    by_cases h : as = []
    · simp [h, listMaxNat]
    · rcases le_total a (listMaxNat as) with h1 | h1
      · rw [listMaxNat, max_eq_right h1]
        exact List.mem_cons_of_mem a (ih h)
      · rw [listMaxNat, max_eq_left h1]
        exact List.mem_cons_self a as

/-- Every element of a list of naturals is bounded by its maximum. -/
theorem le_listMaxNat : ∀ (l : List Nat) (x : Nat), x ∈ l → x ≤ listMaxNat l := by
  intro l
  induction l with
  | nil => simp
  | cons a as ih =>
    intro x hx
    rcases List.mem_cons.1 hx with h | h
    · rw [h, listMaxNat]
      exact le_max_left _ _
    · exact (ih x h).trans (le_max_right _ _)

/-- If no row carries `id`, the per-id filter of the index is empty. -/
theorem filter_id_eq_nil (s : CacheState) (id : List Char)
    (hnone : ∀ v, (id, v) ∉ s.index) :
    s.index.filter (fun r => decide (r.1 = id)) = [] := by
  rw [List.filter_eq_nil_iff]
  intro r hr
  simp only [decide_eq_true_eq]
  intro hr1
  exact hnone r.2 (by rw [← hr1, Prod.mk.eta]; exact hr)

/-- A version recorded for `id` appears in the per-id version list. -/
theorem mem_versions {s : CacheState} {id : List Char} {v : Nat}
    (hv : (id, v) ∈ s.index) :
    v ∈ (s.index.filter (fun r => decide (r.1 = id))).map (fun r => r.2) :=
  List.mem_map.2 ⟨(id, v), List.mem_filter.2 ⟨hv, by simp⟩, rfl⟩

/-- Every member of the per-id version list is recorded for `id`. -/
theorem versions_mem_index {s : CacheState} {id : List Char} {m : Nat}
    (hm : m ∈ (s.index.filter (fun r => decide (r.1 = id))).map (fun r => r.2)) :
    (id, m) ∈ s.index := by
  obtain ⟨r, hrmem, hr2⟩ := List.mem_map.1 hm
  obtain ⟨hrin, hrp⟩ := List.mem_filter.1 hrmem
  have hr1 : r.1 = id := of_decide_eq_true hrp
  rw [← hr1, ← hr2, Prod.mk.eta]
  exact hrin

/-! ## Claim theorems -/

/-- Claim C1: the table-windowing invariant fails on the code.  Starting
from the reachable state with 3 entries, focus 2 and stored offset 2 (itself
produced by a redraw at viewport height 1), a redraw at viewport height 5
computes `next_offset = (offset - diff).min(0) = -2` — `.min` where the
backward pull needs `.max` — and the `as u16` cast wraps it to 65534, so the
resulting offset is neither `≤ focus` nor `0` although the 3 entries fit the
viewport of 5. -/
theorem tableDraw_offset_wrap_bug :
    ((⟨[10, 20, 30], 2, 0⟩ : TableState).draw 1).1 = ⟨[10, 20, 30], 2, 2⟩
    ∧ ((⟨[10, 20, 30], 2, 2⟩ : TableState).draw 5).1.offset = 65534
    ∧ ¬ ((⟨[10, 20, 30], 2, 2⟩ : TableState).draw 5).1.offset
        ≤ ((⟨[10, 20, 30], 2, 2⟩ : TableState).draw 5).1.focus
    ∧ ([10, 20, 30] : List Nat).length ≤ 5
    ∧ ((⟨[10, 20, 30], 2, 2⟩ : TableState).draw 5).1.offset ≠ 0 := by
  decide

/-- Claim C2, counterexample: the commit guard compares `input.len()`, the
UTF-8 byte length, not the character count.  The two-character input `éé`
has byte length 4, so the debounce arm starts a search although the
character count is below 3. -/
theorem commit_length_counts_bytes_cex :
    ("éé".data).length < 3
    ∧ (commitStep "éé".data true).request = some "éé".data := by
  decide

/-- Claim C2, amended: when the debounce timer fires, if the input length
measured in UTF-8 bytes is below 3 the searching flag is cleared and no
search task is started; otherwise exactly one search task is started with
the current input and the searching flag is left as it was. -/
theorem commit_debounce_byte_threshold :
    ∀ (input : List Char) (searching : Bool),
      (rustByteLen input < 3 → commitStep input searching = ⟨false, none⟩)
      ∧ (¬ rustByteLen input < 3 →
          commitStep input searching = ⟨searching, some input⟩) := by
  intro input searching
  constructor <;> intro h <;> simp [commitStep, h]

/-- Witness for `commit_debounce_byte_threshold` at concrete inputs. -/
theorem commit_debounce_byte_threshold_wit :
    commitStep "ab".data true = ⟨false, none⟩
    ∧ commitStep "abc".data true = ⟨true, some "abc".data⟩ :=
  ⟨(commit_debounce_byte_threshold "ab".data true).1 (by decide),
   (commit_debounce_byte_threshold "abc".data true).2 (by decide)⟩

/-- Claim C6: editing does not treat the cursor as a character index
everywhere.  `State::delete` passes `cursor - 1` — a character count — to
`String::remove`, which expects a byte index: with buffer `éab` and cursor 2
(inside the buffer) the byte index 1 falls inside the two-byte `é` and the
code panics, while the same cursor on the ASCII buffer `xab` removes the
character before the cursor as intended. -/
theorem delete_byte_cursor_panic_bug :
    State.delete "éab".data 2 = none
    ∧ State.delete "xab".data 2 = some ("xb".data, 1, true)
    ∧ ("éab".data).length = 3 := by
  decide

/-- Claim C8, counterexample: `TableState::set` does not clamp the clicked
row index — on a two-entry list, setting focus to row 10 leaves the focus at
10, outside `[0, len-1]`. -/
theorem set_focus_unclamped_cex :
    ((⟨[0, 1], 0, 0⟩ : TableState).set 10).2.focus = 10
    ∧ ¬ ((⟨[0, 1], 0, 0⟩ : TableState).set 10).2.focus
        < ([0, 1] : List Nat).length := by
  decide

/-- Claim C8, amended: on a non-empty list of at most `2^16` entries with
the focus in bounds, moving down or up by any step keeps the focus in
`[0, len-1]`; setting the focus to a clicked row keeps it in bounds only
when the clicked index is itself below the length (`set` does not clamp). -/
theorem focus_ops_bounds :
    ∀ (t : TableState) (step row : Nat),
      t.entries ≠ [] → t.entries.length ≤ 65536 → t.focus < t.entries.length →
      ((t.down step).2.focus < t.entries.length
       ∧ (t.up step).2.focus < t.entries.length
       ∧ (row < t.entries.length → (t.set row).2.focus < t.entries.length)) := by
  intro t step row hne hlen hf
  have hmod : (t.entries.length - 1) % 65536 = t.entries.length - 1 :=
    Nat.mod_eq_of_lt (by omega)
  refine ⟨?_, ?_, ?_⟩
  · simp only [TableState.down, if_neg hne, TableState.change_focus, hmod]
    split
    · simpa using hf
    · simp only []
      have : min ((t.focus + step) % 65536) (t.entries.length - 1)
          ≤ t.entries.length - 1 := min_le_right _ _
      omega
  · simp only [TableState.up, if_neg hne, TableState.change_focus]
    split
    · simpa using hf
    · simp only []
      omega
  · intro hrow
    simp only [TableState.set, if_neg hne, TableState.change_focus]
    split
    · simpa using hf
    · simpa using hrow

/-- Witness for `focus_ops_bounds` at a concrete table state. -/
theorem focus_ops_bounds_wit :
    (((⟨[0, 1], 0, 0⟩ : TableState).down 10).2.focus
      < ([0, 1] : List Nat).length)
    ∧ (((⟨[0, 1], 0, 0⟩ : TableState).up 1).2.focus
      < ([0, 1] : List Nat).length)
    ∧ (1 < ([0, 1] : List Nat).length →
      ((⟨[0, 1], 0, 0⟩ : TableState).set 1).2.focus < ([0, 1] : List Nat).length) :=
  focus_ops_bounds ⟨[0, 1], 0, 0⟩ 10 1 (by decide) (by decide) (by decide)

/-- Claim C10: the store writer, modelled as the sequential loop of the
dedicated writer thread draining its channel, executes the submitted
commands in submission order, one at a time and each to completion; a failed
command only adds to the error log and every later command still executes;
nothing after the `End` sentinel runs. -/
theorem store_writer_order_and_isolation :
    ∀ (cmds : List (Nat × Bool)) (rest : List StoreMsg),
      writerLoop (cmds.map (fun c => .compute c.1 c.2) ++ .stop :: rest)
      = (cmds.map (fun c => c.1),
         (cmds.filter (fun c => !c.2)).map (fun c => c.1)) := by
  intro cmds rest
  induction cmds with
  | nil => rfl
  | cons c cs ih =>
    cases hb : c.2 <;>
      simp [writerLoop, ih, List.filter_cons, hb]

/-- Witness for `store_writer_order_and_isolation` on a concrete command
sequence: the failing command 2 is logged, commands 1–3 all execute in
order, and the command submitted after the sentinel does not. -/
theorem store_writer_order_and_isolation_wit :
    writerLoop [.compute 1 true, .compute 2 false, .compute 3 true, .stop, .compute 4 true]
    = ([1, 2, 3], [2]) := by
  have h := store_writer_order_and_isolation
    [(1, true), (2, false), (3, true)] [.compute 4 true]
  simpa using h

/-- Lemma: `State::click_entry` never touches the `last_click` bookkeeping. -/
theorem click_entry_keeps_last (s : ClickState) (row : Nat) :
    (s.click_entry row).2.lastClickTime = s.lastClickTime
    ∧ (s.click_entry row).2.lastClickRow = s.lastClickRow := by
  unfold ClickState.click_entry
  split
  · exact ⟨rfl, rfl⟩
  · cases h : s.output with
    | none => exact ⟨rfl, rfl⟩
    | some o =>
      cases o with
      | err m => exact ⟨rfl, rfl⟩
      | ok t => exact ⟨rfl, rfl⟩

/-- Claim C7, counterexample: with ten entries and nobody busy, a first
click on row 5 changes the focus (time 1000000 ms), a second click on row 5
at 1000600 ms does not change the focus and is ignored, yet a third click on
row 5 at 1000700 ms is treated as a selection — 700 ms after the only click
that actually changed focus onto that row, outside the 500 ms window the
claim allows. -/
theorem double_click_no_focus_change_cex :
    clickUpStep ⟨false, none, some (.ok ⟨List.range 10, 0, 0⟩), 0, 65535⟩ 1000000 5
      = (⟨false, none, some (.ok ⟨List.range 10, 5, 0⟩), 1000000, 5⟩, .focusChange)
    ∧ clickUpStep ⟨false, none, some (.ok ⟨List.range 10, 5, 0⟩), 1000000, 5⟩ 1000600 5
      = (⟨false, none, some (.ok ⟨List.range 10, 5, 0⟩), 1000600, 5⟩, .ignored)
    ∧ clickUpStep ⟨false, none, some (.ok ⟨List.range 10, 5, 0⟩), 1000600, 5⟩ 1000700 5
      = (⟨false, none, some (.ok ⟨List.range 10, 5, 0⟩), 1000700, 5⟩, .select)
    ∧ 1000000 + 500 ≤ 1000700 := by
  decide

/-- Claim C7, amended: a click on a table row is treated as a selection
exactly when it lands on the row recorded by the last click after which the
focus equalled its clicked row (whether or not that click changed the
focus), within 500 ms of it; the busy check gates only the focus change, not
this selection test. -/
theorem click_select_iff_window_same_row :
    ∀ (s : ClickState) (now index : Nat),
      (clickUpStep s now index).2 = .select
      ↔ (s.lastClickRow = index ∧ now < s.lastClickTime + 500) := by
  intro s now index
  obtain ⟨ht, hr⟩ := click_entry_keeps_last s index
  rcases eq_or_ne s.lastClickRow index with h1 | h1 <;>
    rcases Nat.lt_or_ge now (s.lastClickTime + 500) with h2 | h2 <;>
      cases hc : (s.click_entry index).1 <;>
        simp [clickUpStep, ht, hr, h1, h2, hc, Nat.not_lt.2 h2]

/-- Witness for `click_select_iff_window_same_row` at a concrete state. -/
theorem click_select_iff_window_same_row_wit :
    (clickUpStep ⟨false, none, some (.ok ⟨List.range 10, 5, 0⟩), 1000600, 5⟩ 1000700 5).2
      = .select
    ↔ (5 = 5 ∧ 1000700 < 1000600 + 500) :=
  click_select_iff_window_same_row
    ⟨false, none, some (.ok ⟨List.range 10, 5, 0⟩), 1000600, 5⟩ 1000700 5

/-- Claim C3: insert validation.  The example id/referenced-id pair with a
URL whose trailing segment is `1234.5678v2` is accepted with basename
`1234.5678v2` and version 2, and rejected with a `v3` URL; in general every
accepted triple has its version parsed from the URL's trailing segment, that
version agrees with the id's version suffix whenever the id carries one, and
a validation failure leaves the cache state untouched (no file and no index
write). -/
theorem validate_version_consistency :
    (preprint.validate "http://arxiv.org/abs/1234.5678v2".data "1234.5678".data
        "http://arxiv.org/pdf/1234.5678v2".data = .ok ("1234.5678v2".data, 2))
    ∧ ((preprint.validate "http://arxiv.org/abs/1234.5678v2".data "1234.5678".data
        "http://arxiv.org/pdf/1234.5678v3".data).isOk = false)
    ∧ (∀ (id ref url b : List Char) (v : Nat),
        preprint.validate id ref url = .ok (b, v) →
        ∃ u, urlVersionChars url = some u ∧ parseU8 u = some v
          ∧ ∀ s, idVersionChars id = some s → s = u)
    ∧ (∀ (st : CacheState) (id ref url : List Char) (c : List Nat) (e : List Char),
        preprint.validate id ref url = .error e →
        Cache.insert st id ref url c = (.error e, st)) := by
  refine ⟨by decide, by decide, ?_, ?_⟩
  · intro id ref url b v h
    simp only [preprint.validate] at h
    split at h
    · exact absurd h (by simp)
    rename_i identifier heq
    rcases hiv : rsplitOnceChar identifier 'v' with _ | p
    · -- the requested id carries no version suffix
      rw [hiv] at h
      dsimp only at h
      split at h
      · exact absurd h (by simp)
      rcases hurl : (rfindChar '/' url).bind
          (fun i => if i < url.length - 1 then some i else none) with _ | index
      · rw [hurl] at h
        exact absurd h (by simp)
      rw [hurl] at h
      dsimp only at h
      rcases huv : rsplitOnceChar (List.drop (index + 1) url) 'v' with _ | uv
      · rw [huv] at h
        exact absurd h (by simp)
      rw [huv] at h
      dsimp only at h
      rcases hp : parseU8 uv.2 with _ | ver
      · rw [hp] at h
        simp at h
      rw [hp] at h
      simp at h
      refine ⟨uv.2, ?_, ?_, ?_⟩
      · simp [urlVersionChars, hurl, huv]
      · rw [hp, h.2]
      · intro s hs
        simp [idVersionChars, heq, hiv] at hs
    · -- the requested id carries the version suffix p.2
      rw [hiv] at h
      dsimp only at h
      split at h
      · exact absurd h (by simp)
      rcases hurl : (rfindChar '/' url).bind
          (fun i => if i < url.length - 1 then some i else none) with _ | index
      · rw [hurl] at h
        exact absurd h (by simp)
      rw [hurl] at h
      dsimp only at h
      rcases huv : rsplitOnceChar (List.drop (index + 1) url) 'v' with _ | uv
      · rw [huv] at h
        exact absurd h (by simp)
      rw [huv] at h
      dsimp only at h
      split at h
      · rename_i hsv
        rcases hp : parseU8 uv.2 with _ | ver
        · rw [hp] at h
          simp at h
        rw [hp] at h
        simp at h
        refine ⟨uv.2, ?_, ?_, ?_⟩
        · simp [urlVersionChars, hurl, huv]
        · rw [hp, h.2]
        · intro s hs
          simp [idVersionChars, heq, hiv] at hs
          rw [← hs]
          exact of_decide_eq_true hsv
      · exact absurd h (by simp)
  · intro st id ref url c e h
    simp only [Cache.insert, h]

/-- Witness for `validate_version_consistency` at concrete inputs. -/
theorem validate_version_consistency_wit :
    (∃ u, urlVersionChars "http://arxiv.org/pdf/1234.5678v2".data = some u
      ∧ parseU8 u = some 2
      ∧ ∀ s, idVersionChars "http://arxiv.org/abs/1234.5678v2".data = some s → s = u)
    ∧ Cache.insert ⟨"p".data, [], []⟩ "bad".data "1234.5678".data "u/1v1".data []
      = (.error "unexpected arxiv id".data, ⟨"p".data, [], []⟩) :=
  ⟨validate_version_consistency.2.2.1 "http://arxiv.org/abs/1234.5678v2".data
      "1234.5678".data "http://arxiv.org/pdf/1234.5678v2".data "1234.5678v2".data 2
      (by decide),
   validate_version_consistency.2.2.2 ⟨"p".data, [], []⟩ "bad".data "1234.5678".data
      "u/1v1".data [] "unexpected arxiv id".data (by decide)⟩

/-- Claim C4: committing the same `(id, version)` pair twice makes the
second `Cache::insert` fail on the `UNIQUE (id, version)` constraint; the
index is left exactly as the first insert wrote it, holding the pair once. -/
theorem insert_duplicate_fails :
    ∀ (s : CacheState) (id1 ref1 url1 : List Char) (c1 : List Nat) (p : List Char)
      (s1 : CacheState) (id2 ref2 url2 : List Char) (c2 : List Nat)
      (b1 b2 : List Char) (v1 : Nat),
      Cache.insert s id1 ref1 url1 c1 = (.ok p, s1) →
      preprint.validate id1 ref1 url1 = .ok (b1, v1) →
      preprint.validate id2 ref2 url2 = .ok (b2, v1) →
      ref2 = ref1 →
      ((Cache.insert s1 id2 ref2 url2 c2).1.isOk = false
       ∧ (Cache.insert s1 id2 ref2 url2 c2).2.index = s1.index
       ∧ s1.index.count (ref1, v1) = 1) := by
  intro s id1 ref1 url1 c1 p s1 id2 ref2 url2 c2 b1 b2 v1 h1 hv1 hv2 href
  rw [href] at hv2 ⊢
  simp only [Cache.insert, hv1] at h1
  split at h1
  · exact absurd h1 (by simp)
  rename_i hmem
  have hs1 : s1 = { s with
      files := fsWrite s.files (s.preprints ++ '/' :: (b1 ++ ".pdf".data)) c1,
      index := s.index ++ [(ref1, v1)] } := (congrArg Prod.snd h1).symm
  subst hs1
  have hin : (ref1, v1) ∈ s.index ++ [(ref1, v1)] := by simp
  have hcount : s.index.count (ref1, v1) = 0 := List.count_eq_zero.2 hmem
  simp only [Cache.insert, hv2]
  rw [if_pos hin]
  refine ⟨rfl, rfl, ?_⟩
  simp [List.count_append, hcount]

/-- Witness for `insert_duplicate_fails`: the same download committed twice
into an initially empty cache. -/
theorem insert_duplicate_fails_wit :
    ((Cache.insert
        ⟨"p".data, [("1234.5678".data, 2)], [("p/1234.5678v2.pdf".data, [7])]⟩
        "http://arxiv.org/abs/1234.5678v2".data "1234.5678".data
        "http://arxiv.org/pdf/1234.5678v2".data [8]).1.isOk = false
     ∧ (Cache.insert
        ⟨"p".data, [("1234.5678".data, 2)], [("p/1234.5678v2.pdf".data, [7])]⟩
        "http://arxiv.org/abs/1234.5678v2".data "1234.5678".data
        "http://arxiv.org/pdf/1234.5678v2".data [8]).2.index
        = (⟨"p".data, [("1234.5678".data, 2)],
            [("p/1234.5678v2.pdf".data, [7])]⟩ : CacheState).index
     ∧ (⟨"p".data, [("1234.5678".data, 2)],
          [("p/1234.5678v2.pdf".data, [7])]⟩ : CacheState).index.count
          ("1234.5678".data, 2) = 1) :=
  insert_duplicate_fails ⟨"p".data, [], []⟩
    "http://arxiv.org/abs/1234.5678v2".data "1234.5678".data
    "http://arxiv.org/pdf/1234.5678v2".data [7] "p/1234.5678v2.pdf".data
    ⟨"p".data, [("1234.5678".data, 2)], [("p/1234.5678v2.pdf".data, [7])]⟩
    "http://arxiv.org/abs/1234.5678v2".data "1234.5678".data
    "http://arxiv.org/pdf/1234.5678v2".data [8]
    "1234.5678v2".data "1234.5678v2".data 2
    (by decide) (by decide) (by decide) rfl

/-- Claim C5: `Cache::preprint_file_from_id` returns `Ok(None)` when the
index has no record for the id; when records exist it selects the highest
recorded version `m`, and returns the path built from the id and `m` when
the backing file exists, and an error (not a miss) when the file is absent. -/
theorem lookup_highest_version :
    ∀ (s : CacheState) (id : List Char),
      ((∀ v, (id, v) ∉ s.index) → Cache.preprint_file_from_id s id = .ok none)
      ∧ (∀ v, (id, v) ∈ s.index →
          ∃ m, (id, m) ∈ s.index ∧ (∀ w, (id, w) ∈ s.index → w ≤ m)
            ∧ ((s.files.any
                  (fun f => decide (f.1 = s.preprints ++ '/' :: preprint.id_to_file id m)) = true →
                Cache.preprint_file_from_id s id
                  = .ok (some (s.preprints ++ '/' :: preprint.id_to_file id m)))
              ∧ (s.files.any
                  (fun f => decide (f.1 = s.preprints ++ '/' :: preprint.id_to_file id m)) = false →
                Cache.preprint_file_from_id s id = .error "inconsistent cache".data))) := by
  intro s id
  constructor
  · intro hnone
    simp [Cache.preprint_file_from_id, filter_id_eq_nil s id hnone]
  · intro v hv
    have hvm := mem_versions hv
    have hne : (s.index.filter (fun r => decide (r.1 = id))).map (fun r => r.2) ≠ [] := by
      intro hc
      rw [hc] at hvm
      exact absurd hvm (List.not_mem_nil _)
    obtain ⟨a, as, hcons⟩ := List.exists_cons_of_ne_nil hne
    refine ⟨listMaxNat ((s.index.filter (fun r => decide (r.1 = id))).map (fun r => r.2)),
      versions_mem_index (listMaxNat_mem _ hne), ?_, ?_⟩
    · intro w hw
      exact le_listMaxNat _ _ (mem_versions hw)
    · have heval : Cache.preprint_file_from_id s id =
          (if s.files.any (fun f => decide (f.1 = s.preprints ++ '/' ::
              preprint.id_to_file id
                (listMaxNat ((s.index.filter (fun r => decide (r.1 = id))).map (fun r => r.2)))))
           then .ok (some (s.preprints ++ '/' :: preprint.id_to_file id
                (listMaxNat ((s.index.filter (fun r => decide (r.1 = id))).map (fun r => r.2)))))
           else .error "inconsistent cache".data) := by
        simp only [Cache.preprint_file_from_id, hcons]
      constructor
      · intro htrue
        rw [heval, if_pos htrue]
      · intro hfalse
        rw [heval, if_neg (by rw [hfalse]; simp)]

/-- Witness for `lookup_highest_version`: lookup on an empty index misses. -/
theorem lookup_highest_version_wit :
    Cache.preprint_file_from_id ⟨"p".data, [], []⟩ "1234.5678".data = .ok none :=
  (lookup_highest_version ⟨"p".data, [], []⟩ "1234.5678".data).1 (by simp)

/-- Claim C9: `Cache::get_downloaded` maps each recorded id to the maximum
version recorded for it — on records `(A,1),(A,3),(A,2)` it yields `A : 3` —
and ids with no record are absent. -/
theorem known_versions_per_id_max :
    (Cache.get_downloaded
        ⟨"p".data, [("A".data, 1), ("A".data, 3), ("A".data, 2)], []⟩ "A".data
      = some 3)
    ∧ (∀ (s : CacheState) (id : List Char),
        ((∀ v, (id, v) ∉ s.index) → Cache.get_downloaded s id = none)
        ∧ (∀ v, (id, v) ∈ s.index →
            ∃ m, Cache.get_downloaded s id = some m ∧ v ≤ m ∧ (id, m) ∈ s.index)) := by
  refine ⟨by decide, ?_⟩
  intro s id
  constructor
  · intro hnone
    simp [Cache.get_downloaded, filter_id_eq_nil s id hnone]
  · intro v hv
    have hvm := mem_versions hv
    have hne : (s.index.filter (fun r => decide (r.1 = id))).map (fun r => r.2) ≠ [] := by
      intro hc
      rw [hc] at hvm
      exact absurd hvm (List.not_mem_nil _)
    obtain ⟨a, as, hcons⟩ := List.exists_cons_of_ne_nil hne
    refine ⟨listMaxNat ((s.index.filter (fun r => decide (r.1 = id))).map (fun r => r.2)),
      ?_, le_listMaxNat _ _ hvm, versions_mem_index (listMaxNat_mem _ hne)⟩
    simp only [Cache.get_downloaded, hcons]

/-- Witness for `known_versions_per_id_max` on the records of the example. -/
theorem known_versions_per_id_max_wit :
    ∃ m, Cache.get_downloaded
        ⟨"p".data, [("A".data, 1), ("A".data, 3), ("A".data, 2)], []⟩ "A".data
        = some m
      ∧ 1 ≤ m
      ∧ ("A".data, m) ∈ (⟨"p".data, [("A".data, 1), ("A".data, 3), ("A".data, 2)], []⟩
          : CacheState).index :=
  (known_versions_per_id_max.2
      ⟨"p".data, [("A".data, 1), ("A".data, 3), ("A".data, 2)], []⟩ "A".data).2
    1 (by decide)

end Pneo

